import Mathlib

/-
  Verification of the UUID codec in sqlean's src/sqlite3-uuid.c.

  Strings are modelled as `List Char`: the list holds the characters
  before the terminating NUL, so the empty tail plays the role of the
  terminator.  Bytes are `Nat` values below 256, blobs are `List Nat`.
  SQL values are a tagged union, and fallible conversions return
  `Option`, mirroring the C convention of returning 0 / NULL on failure.
-/

namespace SqleanUuid

/-- C library `isxdigit` restricted to the portable hex range used by the
source: `0-9`, `a-f`, `A-F`. -/
def isxdigit (c : Char) : Bool :=
  (decide ('0' ≤ c) && decide (c ≤ '9')) ||
  (decide ('a' ≤ c) && decide (c ≤ 'f')) ||
  (decide ('A' ≤ c) && decide (c ≤ 'F'))

/-- Embeds `sqlite3UuidHexToInt` (ASCII branch): `h += 9 * (1 & (h >> 6));
return h & 0xf;`. -/
def sqlite3UuidHexToInt (h : Nat) : Nat :=
  (h + 9 * (1 &&& (h >>> 6))) &&& 0xf

/-- Hex value of a character, via its code point, as the C code does. -/
def hexCharToInt (c : Char) : Nat :=
  sqlite3UuidHexToInt c.toNat

/-- The byte assembled from two hex digits:
`(sqlite3UuidHexToInt(zStr[0]) << 4) + sqlite3UuidHexToInt(zStr[1])`. -/
def hexPairVal (c0 c1 : Char) : Nat :=
  (hexCharToInt c0 <<< 4) + hexCharToInt c1

/-- The digit table `static const char zDigits[] = "0123456789abcdef"`. -/
def zDigits : List Char :=
  "0123456789abcdef".toList

/-- `zDigits[n]` (all uses in the source are in bounds). -/
def hexDigitChar (n : Nat) : Char :=
  zDigits.getD n '0'

/-- The two hex characters a byte renders to: `zDigits[x >> 4]` then
`zDigits[x & 0xf]` — high nibble first. -/
def hx (x : Nat) : List Char :=
  [hexDigitChar (x >>> 4), hexDigitChar (x &&& 0xf)]

/-- The loop body of `sqlite3_uuid_blob_to_str`: `k` starts at `0x550` and
is shifted right once per byte; when `k & 1` the byte is preceded by a
hyphen. -/
def blobToStrAux : List Nat → Nat → List Char
  | [], _ => []
  | x :: rest, k =>
    (if k &&& 1 = 1 then ['-'] else []) ++
      (hexDigitChar (x >>> 4) :: hexDigitChar (x &&& 0xf) :: blobToStrAux rest (k >>> 1))

/-- Embeds `sqlite3_uuid_blob_to_str`: render a 16-byte blob as the
canonical 36-character string (the C code writes a trailing NUL which the
list model does not carry). -/
def sqlite3_uuid_blob_to_str (aBlob : List Nat) : List Char :=
  blobToStrAux aBlob 0x550

/-- The statement pattern `if (zStr[0] == t) zStr++;`: skip a single
occurrence of `t` at the front, if present (the empty list stands for the
terminator, which never matches). -/
def skipChar (t : Char) (s : List Char) : List Char :=
  match s with
  | c :: r => if c = t then r else s
  | [] => s

/-- The 16-iteration loop of `sqlite3_uuid_str_to_blob`: per byte, skip a
single optional `-`, then require two hex digits.  Returns the decoded
bytes and the unconsumed remainder of the string. -/
def strToBlobLoop : Nat → List Char → Option (List Nat × List Char)
  | 0, s => some ([], s)
  | n + 1, s =>
    match skipChar '-' s with
    | c0 :: c1 :: r =>
      if isxdigit c0 && isxdigit c1 then
        match strToBlobLoop n r with
        | some (bs, rest) => some (hexPairVal c0 c1 :: bs, rest)
        | none => none
      else none
    | _ => none

/-- Embeds `sqlite3_uuid_str_to_blob`: optional leading `\x7b`, sixteen
byte groups, optional trailing `\x7d`, then the terminator must follow.
`none` models the non-zero failure return. -/
def sqlite3_uuid_str_to_blob (zStr : List Char) : Option (List Nat) :=
  match strToBlobLoop 16 (skipChar '\x7b' zStr) with
  | none => none
  | some (aBlob, rest) =>
    if skipChar '\x7d' rest = [] then some aBlob else none

/-- The version/variant stamping in `sqlite3_uuid`:
`aBlob[6] = (aBlob[6] & 0x0f) + 0x40; aBlob[8] = (aBlob[8] & 0x3f) + 0x80;`. -/
def uuid4_blob (aBlob : List Nat) : List Nat :=
  let b1 := aBlob.set 6 ((aBlob.getD 6 0 &&& 0x0f) + 0x40)
  b1.set 8 ((b1.getD 8 0 &&& 0x3f) + 0x80)

/-- Embeds `sqlite3_uuid` with the output of `sqlite3_randomness(16, aBlob)`
supplied as an argument (the random source is an external collaborator). -/
def sqlite3_uuid (randomBytes : List Nat) : List Char :=
  sqlite3_uuid_blob_to_str (uuid4_blob randomBytes)

/-- The SQL value kinds `sqlite3_uuid_input_to_blob` dispatches on:
`SQLITE_TEXT`, `SQLITE_BLOB`, and the kinds reaching the `default` arm. -/
inductive SqlValue where
  | text (z : List Char)
  | blob (b : List Nat)
  | integer (i : Int)
  | null
  deriving DecidableEq

/-- Embeds `sqlite3_uuid_input_to_blob`: text is parsed, a blob passes
through iff its length is exactly 16, everything else fails. -/
def sqlite3_uuid_input_to_blob : SqlValue → Option (List Nat)
  | SqlValue.text z =>
    match sqlite3_uuid_str_to_blob z with
    | none => none
    | some aBlob => some aBlob
  | SqlValue.blob b => if b.length = 16 then some b else none
  | SqlValue.integer _ => none
  | SqlValue.null => none

/-- Embeds `sqlite3_uuid_str` (the `uuid_str` SQL function): normalize the
input to a blob and format it; `none` models the silent return that
yields SQL NULL. -/
def uuid_str (v : SqlValue) : Option (List Char) :=
  match sqlite3_uuid_input_to_blob v with
  | none => none
  | some pBlob => some (sqlite3_uuid_blob_to_str pBlob)

/-- Embeds `sqlite3_uuid_blob` (the `uuid_blob` SQL function). -/
def uuid_blob (v : SqlValue) : Option (List Nat) :=
  match sqlite3_uuid_input_to_blob v with
  | none => none
  | some pBlob => some pBlob

/-- A character of the canonical output alphabet: a lower-case hex digit. -/
def isLowerHexDigit (c : Char) : Bool :=
  zDigits.contains c

/-- The canonical RFC-4122 pattern `xxxxxxxx-xxxx-xxxx-xxxx-xxxxxxxxxxxx`:
36 characters, hyphens exactly at indices 8, 13, 18, 23, lower-case hex
digits everywhere else. -/
def matchesCanonical (s : List Char) : Bool :=
  match s with
  | a0 :: a1 :: a2 :: a3 :: a4 :: a5 :: a6 :: a7 :: g1 ::
    b0 :: b1 :: b2 :: b3 :: g2 :: c0 :: c1 :: c2 :: c3 :: g3 ::
    d0 :: d1 :: d2 :: d3 :: g4 ::
    e0 :: e1 :: e2 :: e3 :: e4 :: e5 :: e6 :: e7 :: e8 :: e9 :: e10 :: e11 :: [] =>
    decide (g1 = '-') && decide (g2 = '-') && decide (g3 = '-') && decide (g4 = '-') &&
    ([a0, a1, a2, a3, a4, a5, a6, a7, b0, b1, b2, b3, c0, c1, c2, c3,
      d0, d1, d2, d3, e0, e1, e2, e3, e4, e5, e6, e7, e8, e9, e10, e11].all
        isLowerHexDigit)
  | _ => false

/-- Pair up a list of nibble values into bytes, high nibble first. -/
def pairUp : List Nat → List Nat
  | a :: b :: r => ((a <<< 4) + b) :: pairUp r
  | _ => []

/-- The shape of text consumed by the 16-byte loop of the parser:
`GroupSeq n body bs` holds when `body` is exactly `n` byte groups, each an
optional single hyphen followed by two hex digits, decoding to `bs`. -/
inductive GroupSeq : Nat → List Char → List Nat → Prop where
  | nil : GroupSeq 0 [] []
  | pair {n : Nat} {c0 c1 : Char} {r : List Char} {bs : List Nat} :
      isxdigit c0 = true → isxdigit c1 = true → GroupSeq n r bs →
      GroupSeq (n + 1) (c0 :: c1 :: r) (hexPairVal c0 c1 :: bs)
  | hyph {n : Nat} {c0 c1 : Char} {r : List Char} {bs : List Nat} :
      isxdigit c0 = true → isxdigit c1 = true → GroupSeq n r bs →
      GroupSeq (n + 1) ('-' :: c0 :: c1 :: r) (hexPairVal c0 c1 :: bs)

/-- The exact set of accepted parser inputs: an optional leading brace, 16
byte groups, an optional trailing brace, and nothing after. -/
def BraceShape (s : List Char) (bs : List Nat) : Prop :=
  ∃ lb body rb, s = lb ++ body ++ rb ∧
    (lb = [] ∨ lb = ['\x7b']) ∧ (rb = [] ∨ rb = ['\x7d']) ∧
    GroupSeq 16 body bs

/-! Character-level facts. -/

theorem isxdigit_ne_hyphen {c : Char} (h : isxdigit c = true) : c ≠ '-' := by
  intro he; rw [he] at h; exact absurd h (by decide)

theorem isxdigit_ne_lbrace {c : Char} (h : isxdigit c = true) : c ≠ '\x7b' := by
  intro he; rw [he] at h; exact absurd h (by decide)

theorem isxdigit_ne_rbrace {c : Char} (h : isxdigit c = true) : c ≠ '\x7d' := by
  intro he; rw [he] at h; exact absurd h (by decide)

theorem isxdigit_ne_nul {c : Char} (h : isxdigit c = true) : c ≠ '\x00' := by
  intro he; rw [he] at h; exact absurd h (by decide)

theorem hexDigitChar_big {n : Nat} (h : 16 ≤ n) : hexDigitChar n = '0' := by
  unfold hexDigitChar
  exact List.getD_eq_default _ _ h

theorem isxdigit_hexDigitChar (n : Nat) : isxdigit (hexDigitChar n) = true := by
  rcases Nat.lt_or_ge n 16 with h | h
  · interval_cases n <;> decide
  · rw [hexDigitChar_big h]; decide

theorem hexDigitChar_ne_hyphen (n : Nat) : hexDigitChar n ≠ '-' :=
  isxdigit_ne_hyphen (isxdigit_hexDigitChar n)

theorem hexDigitChar_ne_lbrace (n : Nat) : hexDigitChar n ≠ '\x7b' :=
  isxdigit_ne_lbrace (isxdigit_hexDigitChar n)

theorem contains_hexDigitChar (n : Nat) : zDigits.contains (hexDigitChar n) = true := by
  rcases Nat.lt_or_ge n 16 with h | h
  · interval_cases n <;> decide
  · rw [hexDigitChar_big h]; decide

theorem hexCharToInt_hexDigitChar {n : Nat} (h : n < 16) :
    hexCharToInt (hexDigitChar n) = n := by
  interval_cases n <;> decide

theorem hexCharToInt_le (c : Char) : hexCharToInt c ≤ 15 := by
  unfold hexCharToInt sqlite3UuidHexToInt
  exact Nat.and_le_right

theorem hexPairVal_lt (c0 c1 : Char) : hexPairVal c0 c1 < 256 := by
  unfold hexPairVal
  have h0 := hexCharToInt_le c0
  have h1 := hexCharToInt_le c1
  have : hexCharToInt c0 <<< 4 = hexCharToInt c0 * 16 := by
    rw [Nat.shiftLeft_eq]
  omega

theorem hexPairVal_hexDigitChar {x : Nat} (h : x < 256) :
    hexPairVal (hexDigitChar (x >>> 4)) (hexDigitChar (x &&& 0xf)) = x := by
  have h4 : x >>> 4 = x / 16 := by
    rw [Nat.shiftRight_eq_div_pow]
  have hf : x &&& 0xf = x % 16 := by
    have := Nat.and_pow_two_sub_one_eq_mod x 4
    simpa using this
  unfold hexPairVal
  rw [h4, hf, hexCharToInt_hexDigitChar (by omega),
    hexCharToInt_hexDigitChar (by omega), Nat.shiftLeft_eq]
  omega

/-! Formatter decomposition: the 16-byte loop produces exactly the
8-4-4-4-12 grouping. -/

theorem blob_to_str_sixteen (x0 x1 x2 x3 x4 x5 x6 x7 x8 x9 x10 x11 x12 x13 x14 x15 : Nat) :
    sqlite3_uuid_blob_to_str [x0, x1, x2, x3, x4, x5, x6, x7, x8, x9, x10, x11, x12, x13, x14, x15] =
      hx x0 ++ hx x1 ++ hx x2 ++ hx x3 ++ ['-'] ++ hx x4 ++ hx x5 ++ ['-'] ++
      hx x6 ++ hx x7 ++ ['-'] ++ hx x8 ++ hx x9 ++ ['-'] ++
      hx x10 ++ hx x11 ++ hx x12 ++ hx x13 ++ hx x14 ++ hx x15 := by
  simp [sqlite3_uuid_blob_to_str, blobToStrAux, hx]

theorem blob_to_str_sixteen_flat
    (x0 x1 x2 x3 x4 x5 x6 x7 x8 x9 x10 x11 x12 x13 x14 x15 : Nat) :
    sqlite3_uuid_blob_to_str [x0, x1, x2, x3, x4, x5, x6, x7, x8, x9, x10, x11, x12, x13, x14, x15] =
      [hexDigitChar (x0 >>> 4), hexDigitChar (x0 &&& 0xf),
       hexDigitChar (x1 >>> 4), hexDigitChar (x1 &&& 0xf),
       hexDigitChar (x2 >>> 4), hexDigitChar (x2 &&& 0xf),
       hexDigitChar (x3 >>> 4), hexDigitChar (x3 &&& 0xf), '-',
       hexDigitChar (x4 >>> 4), hexDigitChar (x4 &&& 0xf),
       hexDigitChar (x5 >>> 4), hexDigitChar (x5 &&& 0xf), '-',
       hexDigitChar (x6 >>> 4), hexDigitChar (x6 &&& 0xf),
       hexDigitChar (x7 >>> 4), hexDigitChar (x7 &&& 0xf), '-',
       hexDigitChar (x8 >>> 4), hexDigitChar (x8 &&& 0xf),
       hexDigitChar (x9 >>> 4), hexDigitChar (x9 &&& 0xf), '-',
       hexDigitChar (x10 >>> 4), hexDigitChar (x10 &&& 0xf),
       hexDigitChar (x11 >>> 4), hexDigitChar (x11 &&& 0xf),
       hexDigitChar (x12 >>> 4), hexDigitChar (x12 &&& 0xf),
       hexDigitChar (x13 >>> 4), hexDigitChar (x13 &&& 0xf),
       hexDigitChar (x14 >>> 4), hexDigitChar (x14 &&& 0xf),
       hexDigitChar (x15 >>> 4), hexDigitChar (x15 &&& 0xf)] := by
  simp [sqlite3_uuid_blob_to_str, blobToStrAux]

theorem exists_sixteen {bs : List Nat} (h : bs.length = 16) :
    ∃ x0 x1 x2 x3 x4 x5 x6 x7 x8 x9 x10 x11 x12 x13 x14 x15,
      bs = [x0, x1, x2, x3, x4, x5, x6, x7, x8, x9, x10, x11, x12, x13, x14, x15] := by
  rcases bs with _ | ⟨x0, bs⟩; · simp at h
  rcases bs with _ | ⟨x1, bs⟩; · simp at h
  rcases bs with _ | ⟨x2, bs⟩; · simp at h
  rcases bs with _ | ⟨x3, bs⟩; · simp at h
  rcases bs with _ | ⟨x4, bs⟩; · simp at h
  rcases bs with _ | ⟨x5, bs⟩; · simp at h
  rcases bs with _ | ⟨x6, bs⟩; · simp at h
  rcases bs with _ | ⟨x7, bs⟩; · simp at h
  rcases bs with _ | ⟨x8, bs⟩; · simp at h
  rcases bs with _ | ⟨x9, bs⟩; · simp at h
  rcases bs with _ | ⟨x10, bs⟩; · simp at h
  rcases bs with _ | ⟨x11, bs⟩; · simp at h
  rcases bs with _ | ⟨x12, bs⟩; · simp at h
  rcases bs with _ | ⟨x13, bs⟩; · simp at h
  rcases bs with _ | ⟨x14, bs⟩; · simp at h
  rcases bs with _ | ⟨x15, bs⟩; · simp at h
  rcases bs with _ | ⟨x16, bs⟩
  · exact ⟨x0, x1, x2, x3, x4, x5, x6, x7, x8, x9, x10, x11, x12, x13, x14, x15, rfl⟩
  · simp at h

/-! Parser loop versus `GroupSeq`. -/

theorem skipChar_nil (t : Char) : skipChar t [] = [] := rfl

theorem skipChar_cons_eq (t : Char) (r : List Char) : skipChar t (t :: r) = r := by
  simp [skipChar]

theorem skipChar_cons_ne {t c : Char} (h : c ≠ t) (r : List Char) :
    skipChar t (c :: r) = c :: r := by
  simp [skipChar, h]

theorem strToBlobLoop_of_groupSeq {n : Nat} {body : List Char} {bs : List Nat}
    (h : GroupSeq n body bs) (rest : List Char) :
    strToBlobLoop n (body ++ rest) = some (bs, rest) := by
  induction h with
  | nil => simp [strToBlobLoop]
  | pair hc0 hc1 _ ih =>
    rw [List.cons_append, List.cons_append, strToBlobLoop,
      skipChar_cons_ne (isxdigit_ne_hyphen hc0)]
    simp [hc0, hc1, ih]
  | hyph hc0 hc1 _ ih =>
    rw [List.cons_append, List.cons_append, List.cons_append, strToBlobLoop,
      skipChar_cons_eq]
    simp [hc0, hc1, ih]

theorem groupSeq_nil_eq_zero {n : Nat} {bs : List Nat} (h : GroupSeq n [] bs) : n = 0 := by
  cases h; rfl

theorem groupSeq_of_strToBlobLoop {n : Nat} :
    ∀ {s : List Char} {bs : List Nat} {rest : List Char},
      strToBlobLoop n s = some (bs, rest) →
      ∃ body, s = body ++ rest ∧ GroupSeq n body bs := by
  induction n with
  | zero =>
    intro s bs rest h
    rw [strToBlobLoop] at h
    simp only [Option.some.injEq, Prod.mk.injEq] at h
    exact ⟨[], by simp [h.2], by rw [← h.1]; exact GroupSeq.nil⟩
  | succ n ih =>
    intro s bs rest h
    rw [strToBlobLoop] at h
    split at h
    next c0 c1 r hskip =>
      by_cases hx01 : (isxdigit c0 && isxdigit c1) = true
      · rw [if_pos hx01] at h
        obtain ⟨hc0, hc1⟩ := Bool.and_eq_true_iff.mp hx01
        rcases hrec : strToBlobLoop n r with _ | ⟨bs1, rest1⟩
        · rw [hrec] at h; exact absurd h (by simp)
        · rw [hrec] at h
          simp only [Option.some.injEq, Prod.mk.injEq] at h
          obtain ⟨hbs, hrest⟩ := h
          subst hbs
          subst hrest
          obtain ⟨body1, hr1, hg1⟩ := ih hrec
          rcases s with _ | ⟨c, s2⟩
          · exact absurd hskip (by simp [skipChar])
          · by_cases hc : c = '-'
            · subst hc
              rw [skipChar_cons_eq] at hskip
              subst hskip
              exact ⟨'-' :: c0 :: c1 :: body1, by simp [hr1],
                GroupSeq.hyph hc0 hc1 hg1⟩
            · rw [skipChar_cons_ne hc] at hskip
              injection hskip with he0 he1
              subst he0
              subst he1
              exact ⟨c :: c1 :: body1, by simp [hr1], GroupSeq.pair hc0 hc1 hg1⟩
      · rw [if_neg hx01] at h
        exact absurd h (by simp)
    next hne =>
      exact absurd h (by simp)

theorem groupSeq_head {n : Nat} {body : List Char} {bs : List Nat}
    (h : GroupSeq (n + 1) body bs) :
    ∃ c r, body = c :: r ∧ c ≠ '\x7b' ∧ c ≠ '\x7d' ∧ c ≠ '\x00' := by
  cases h with
  | pair hc0 _ _ =>
    exact ⟨_, _, rfl, isxdigit_ne_lbrace hc0, isxdigit_ne_rbrace hc0, isxdigit_ne_nul hc0⟩
  | hyph _ _ _ => exact ⟨_, _, rfl, by decide, by decide, by decide⟩

/-- The full characterization of the parser's accepted inputs. -/
theorem parse_iff_braceShape (s : List Char) (bs : List Nat) :
    sqlite3_uuid_str_to_blob s = some bs ↔ BraceShape s bs := by
  constructor
  · intro h
    rw [sqlite3_uuid_str_to_blob] at h
    split at h
    next hloop => exact absurd h (by simp)
    next bs1 rest hloop =>
      by_cases hrest : skipChar '\x7d' rest = []
      · rw [if_pos hrest] at h
        simp only [Option.some.injEq] at h
        subst h
        obtain ⟨body, hbody, hg⟩ := groupSeq_of_strToBlobLoop hloop
        have hrb : rest = [] ∨ rest = ['\x7d'] := by
          rcases rest with _ | ⟨c, r⟩
          · exact Or.inl rfl
          · by_cases hc : c = '\x7d'
            · subst hc
              rw [skipChar_cons_eq] at hrest
              exact Or.inr (by rw [hrest])
            · rw [skipChar_cons_ne hc] at hrest
              exact absurd hrest (by simp)
        rcases s with _ | ⟨c, s1⟩
        · rw [skipChar_nil] at hbody
          obtain ⟨hb0, -⟩ := List.append_eq_nil.mp hbody.symm
          subst hb0
          exact absurd (groupSeq_nil_eq_zero hg) (by omega)
        · by_cases hc : c = '\x7b'
          · subst hc
            rw [skipChar_cons_eq] at hbody
            exact ⟨['\x7b'], body, rest, by simp [hbody], Or.inr rfl, hrb, hg⟩
          · rw [skipChar_cons_ne hc] at hbody
            exact ⟨[], body, rest, by simp [hbody], Or.inl rfl, hrb, hg⟩
      · rw [if_neg hrest] at h
        exact absurd h (by simp)
  · rintro ⟨lb, body, rb, rfl, hlb, hrb, hg⟩
    obtain ⟨c, r, hbody, hcl, hcr, hcn⟩ := groupSeq_head hg
    have hskip : skipChar '\x7b' (lb ++ (body ++ rb)) = body ++ rb := by
      rcases hlb with rfl | rfl
      · rw [List.nil_append, hbody, List.cons_append, skipChar_cons_ne hcl,
          ← List.cons_append, ← hbody]
      · rw [List.singleton_append, skipChar_cons_eq]
    rw [sqlite3_uuid_str_to_blob, List.append_assoc, hskip,
      strToBlobLoop_of_groupSeq hg rb]
    rcases hrb with rfl | rfl <;> simp [skipChar]

/-! Consequences of the characterization. -/

theorem isxdigit_hyphen : isxdigit '-' = false := by decide

theorem isxdigit_lbrace : isxdigit '\x7b' = false := by decide

theorem isxdigit_rbrace : isxdigit '\x7d' = false := by decide

theorem groupSeq_blob_length {n : Nat} {body : List Char} {bs : List Nat}
    (h : GroupSeq n body bs) : bs.length = n := by
  induction h <;> simp [*]

theorem groupSeq_bytes_lt {n : Nat} {body : List Char} {bs : List Nat}
    (h : GroupSeq n body bs) : ∀ y ∈ bs, y < 256 := by
  induction h with
  | nil => simp
  | pair _ _ _ ih =>
    intro y hy
    rcases List.mem_cons.mp hy with rfl | hy
    · exact hexPairVal_lt _ _
    · exact ih y hy
  | hyph _ _ _ ih =>
    intro y hy
    rcases List.mem_cons.mp hy with rfl | hy
    · exact hexPairVal_lt _ _
    · exact ih y hy

theorem groupSeq_countP {n : Nat} {body : List Char} {bs : List Nat}
    (h : GroupSeq n body bs) : body.countP isxdigit = 2 * n := by
  induction h with
  | nil => simp
  | pair hc0 hc1 _ ih =>
    simp only [List.countP_cons, hc0, hc1, ih, if_true]
    omega
  | hyph hc0 hc1 _ ih =>
    simp [List.countP_cons, hc0, hc1, ih, isxdigit_hyphen]
    omega

theorem groupSeq_pairUp {n : Nat} {body : List Char} {bs : List Nat}
    (h : GroupSeq n body bs) :
    bs = pairUp ((body.filter isxdigit).map hexCharToInt) := by
  induction h with
  | nil => rfl
  | pair hc0 hc1 _ ih => simp [List.filter_cons, hc0, hc1, pairUp, hexPairVal, ih]
  | hyph hc0 hc1 _ ih =>
    simp [List.filter_cons, hc0, hc1, isxdigit_hyphen, pairUp, hexPairVal, ih]

theorem parse_some_countP {s : List Char} {bs : List Nat}
    (h : sqlite3_uuid_str_to_blob s = some bs) : s.countP isxdigit = 32 := by
  obtain ⟨lb, body, rb, rfl, hlb, hrb, hg⟩ := (parse_iff_braceShape _ _).mp h
  have hb := groupSeq_countP hg
  rcases hlb with rfl | rfl <;> rcases hrb with rfl | rfl <;>
    simp [List.countP_append, List.countP_cons, hb, isxdigit_lbrace, isxdigit_rbrace]

theorem parse_some_length {s : List Char} {bs : List Nat}
    (h : sqlite3_uuid_str_to_blob s = some bs) : bs.length = 16 := by
  obtain ⟨lb, body, rb, rfl, hlb, hrb, hg⟩ := (parse_iff_braceShape _ _).mp h
  exact groupSeq_blob_length hg

theorem parse_some_bytes_lt {s : List Char} {bs : List Nat}
    (h : sqlite3_uuid_str_to_blob s = some bs) : ∀ y ∈ bs, y < 256 := by
  obtain ⟨lb, body, rb, rfl, hlb, hrb, hg⟩ := (parse_iff_braceShape _ _).mp h
  exact groupSeq_bytes_lt hg

theorem parse_some_pairUp {s : List Char} {bs : List Nat}
    (h : sqlite3_uuid_str_to_blob s = some bs) :
    bs = pairUp ((s.filter isxdigit).map hexCharToInt) := by
  obtain ⟨lb, body, rb, rfl, hlb, hrb, hg⟩ := (parse_iff_braceShape _ _).mp h
  have hb := groupSeq_pairUp hg
  rcases hlb with rfl | rfl <;> rcases hrb with rfl | rfl <;>
    simpa [List.filter_append, List.filter_cons, isxdigit_lbrace, isxdigit_rbrace]
      using hb

/-! Round trip: formatting sixteen bytes and parsing the result. -/

theorem strToBlobLoop_blobToStrAux :
    ∀ (bs : List Nat) (k : Nat) (rest : List Char), (∀ x ∈ bs, x < 256) →
      strToBlobLoop bs.length (blobToStrAux bs k ++ rest) = some (bs, rest) := by
  intro bs
  induction bs with
  | nil => intro k rest h; simp [blobToStrAux, strToBlobLoop]
  | cons x bs ih =>
    intro k rest h
    have hx1 : x < 256 := h x (by simp)
    have hrec := ih (k >>> 1) rest (fun y hy => h y (by simp [hy]))
    rw [List.length_cons, blobToStrAux]
    by_cases hk : k &&& 1 = 1
    · rw [if_pos hk]
      simp only [List.singleton_append, List.cons_append]
      rw [strToBlobLoop, skipChar_cons_eq]
      simp [isxdigit_hexDigitChar, hrec, hexPairVal_hexDigitChar hx1]
    · rw [if_neg hk]
      simp only [List.nil_append, List.cons_append]
      rw [strToBlobLoop, skipChar_cons_ne (hexDigitChar_ne_hyphen _)]
      simp [isxdigit_hexDigitChar, hrec, hexPairVal_hexDigitChar hx1]

theorem parse_format {bs : List Nat} (hlen : bs.length = 16)
    (hlt : ∀ x ∈ bs, x < 256) :
    sqlite3_uuid_str_to_blob (sqlite3_uuid_blob_to_str bs) = some bs := by
  obtain ⟨x0, x1, x2, x3, x4, x5, x6, x7, x8, x9, x10, x11, x12, x13, x14, x15, rfl⟩ :=
    exists_sixteen hlen
  have hloop : strToBlobLoop 16
      (sqlite3_uuid_blob_to_str
        [x0, x1, x2, x3, x4, x5, x6, x7, x8, x9, x10, x11, x12, x13, x14, x15] ++ []) =
      some ([x0, x1, x2, x3, x4, x5, x6, x7, x8, x9, x10, x11, x12, x13, x14, x15], []) :=
    strToBlobLoop_blobToStrAux _ 0x550 [] hlt
  rw [List.append_nil] at hloop
  rw [blob_to_str_sixteen_flat] at hloop
  rw [sqlite3_uuid_str_to_blob, blob_to_str_sixteen_flat,
    skipChar_cons_ne (hexDigitChar_ne_lbrace _), hloop]
  simp [skipChar]

theorem blob_to_str_length {bs : List Nat} (h : bs.length = 16) :
    (sqlite3_uuid_blob_to_str bs).length = 36 := by
  obtain ⟨x0, x1, x2, x3, x4, x5, x6, x7, x8, x9, x10, x11, x12, x13, x14, x15, rfl⟩ :=
    exists_sixteen h
  rw [blob_to_str_sixteen_flat]
  rfl

/-! Generator facts: the version/variant stamping. -/

theorem isLowerHexDigit_hexDigitChar (n : Nat) :
    isLowerHexDigit (hexDigitChar n) = true :=
  contains_hexDigitChar n

theorem uuid4_blob_sixteen
    (b0 b1 b2 b3 b4 b5 b6 b7 b8 b9 b10 b11 b12 b13 b14 b15 : Nat) :
    uuid4_blob [b0, b1, b2, b3, b4, b5, b6, b7, b8, b9, b10, b11, b12, b13, b14, b15] =
      [b0, b1, b2, b3, b4, b5, (b6 &&& 0x0f) + 0x40, b7, (b8 &&& 0x3f) + 0x80,
       b9, b10, b11, b12, b13, b14, b15] := by
  simp [uuid4_blob, List.set]

theorem stamp6_or (x : Nat) : (x &&& 0x0f) + 0x40 = (x &&& 0x0f) ||| 0x40 := by
  have h : x &&& 0x0f < 16 := by
    have := Nat.and_le_right (n := x) (m := 0x0f)
    omega
  generalize hy : x &&& 0x0f = y at h
  interval_cases y <;> decide

theorem stamp8_or (x : Nat) : (x &&& 0x3f) + 0x80 = (x &&& 0x3f) ||| 0x80 := by
  have h : x &&& 0x3f < 64 := by
    have := Nat.and_le_right (n := x) (m := 0x3f)
    omega
  generalize hy : x &&& 0x3f = y at h
  interval_cases y <;> decide

theorem version_nibble (x : Nat) :
    hexDigitChar (((x &&& 0x0f) + 0x40) >>> 4) = '4' := by
  have h : x &&& 0x0f < 16 := by
    have := Nat.and_le_right (n := x) (m := 0x0f)
    omega
  have h4 : ((x &&& 0x0f) + 0x40) >>> 4 = 4 := by
    rw [Nat.shiftRight_eq_div_pow]
    omega
  rw [h4]
  rfl

theorem variant_nibble (x : Nat) :
    hexDigitChar (((x &&& 0x3f) + 0x80) >>> 4) ∈ (['8', '9', 'a', 'b'] : List Char) := by
  have h : x &&& 0x3f < 64 := by
    have := Nat.and_le_right (n := x) (m := 0x3f)
    omega
  have ha : 8 ≤ ((x &&& 0x3f) + 0x80) >>> 4 := by
    rw [Nat.shiftRight_eq_div_pow]
    omega
  have hb : ((x &&& 0x3f) + 0x80) >>> 4 ≤ 11 := by
    rw [Nat.shiftRight_eq_div_pow]
    omega
  generalize hv : ((x &&& 0x3f) + 0x80) >>> 4 = v at ha hb
  interval_cases v <;> decide

theorem matchesCanonical_format {bs : List Nat} (h : bs.length = 16) :
    matchesCanonical (sqlite3_uuid_blob_to_str bs) = true := by
  obtain ⟨x0, x1, x2, x3, x4, x5, x6, x7, x8, x9, x10, x11, x12, x13, x14, x15, rfl⟩ :=
    exists_sixteen h
  rw [blob_to_str_sixteen_flat]
  simp [matchesCanonical, isLowerHexDigit_hexDigitChar]

/-! Successful parses never contain two consecutive hyphens. -/

theorem groupSeq_no_ddash {n : Nat} {body : List Char} {bs : List Nat}
    (h : GroupSeq n body bs) :
    ∀ u v : List Char, body ≠ u ++ '-' :: '-' :: v := by
  induction h with
  | nil =>
    intro u v heq
    rcases u with _ | ⟨a, u⟩ <;> simp at heq
  | pair hc0 hc1 _ ih =>
    intro u v heq
    rcases u with _ | ⟨a, u⟩
    · simp only [List.nil_append] at heq
      injection heq with h1 _
      exact isxdigit_ne_hyphen hc0 h1
    · rw [List.cons_append] at heq
      injection heq with h1 h2
      rcases u with _ | ⟨a2, u⟩
      · simp only [List.nil_append] at h2
        injection h2 with h3 _
        exact isxdigit_ne_hyphen hc1 h3
      · rw [List.cons_append] at h2
        injection h2 with h3 h4
        exact ih u v h4
  | hyph hc0 hc1 _ ih =>
    intro u v heq
    rcases u with _ | ⟨a, u⟩
    · simp only [List.nil_append] at heq
      injection heq with _ h2
      injection h2 with h3 _
      exact isxdigit_ne_hyphen hc0 h3
    · rw [List.cons_append] at heq
      injection heq with h1 h2
      rcases u with _ | ⟨a2, u⟩
      · simp only [List.nil_append] at h2
        injection h2 with h3 _
        exact isxdigit_ne_hyphen hc0 h3
      · rw [List.cons_append] at h2
        injection h2 with h3 h4
        rcases u with _ | ⟨a3, u⟩
        · simp only [List.nil_append] at h4
          injection h4 with h5 _
          exact isxdigit_ne_hyphen hc1 h5
        · rw [List.cons_append] at h4
          injection h4 with h5 h6
          exact ih u v h6

theorem append_single_no_ddash {c : Char} (hc : c ≠ '-') :
    ∀ (u L : List Char), (∀ u1 v1, L ≠ u1 ++ '-' :: '-' :: v1) →
      ∀ v, L ++ [c] ≠ u ++ '-' :: '-' :: v := by
  intro u
  induction u with
  | nil =>
    intro L hL v heq
    rcases L with _ | ⟨a, L1⟩
    · simp only [List.nil_append] at heq
      injection heq with h1 h2
      exact absurd h2 (by simp)
    · rw [List.cons_append, List.nil_append] at heq
      injection heq with h1 h2
      rcases L1 with _ | ⟨b, L2⟩
      · simp only [List.nil_append] at h2
        injection h2 with h3 _
        exact hc h3
      · rw [List.cons_append] at h2
        injection h2 with h3 _
        exact hL [] L2 (by rw [h1, h3]; rfl)
  | cons a u1 ih =>
    intro L hL v heq
    rcases L with _ | ⟨b, L1⟩
    · simp only [List.nil_append, List.cons_append] at heq
      injection heq with h1 h2
      exact absurd h2 (by simp)
    · rw [List.cons_append, List.cons_append] at heq
      injection heq with h1 h2
      exact ih L1 (fun u2 v2 hbad => hL (b :: u2) v2 (by rw [hbad]; rfl)) v h2

theorem cons_no_ddash {c : Char} (hc : c ≠ '-') {L : List Char}
    (hL : ∀ u v, L ≠ u ++ '-' :: '-' :: v) :
    ∀ u v, c :: L ≠ u ++ '-' :: '-' :: v := by
  intro u v heq
  rcases u with _ | ⟨a, u1⟩
  · simp only [List.nil_append] at heq
    injection heq with h1 _
    exact hc h1
  · rw [List.cons_append] at heq
    injection heq with h1 h2
    exact hL u1 v h2

theorem parse_some_no_ddash {s : List Char} {bs : List Nat}
    (h : sqlite3_uuid_str_to_blob s = some bs) :
    ∀ u v : List Char, s ≠ u ++ '-' :: '-' :: v := by
  obtain ⟨lb, body, rb, rfl, hlb, hrb, hg⟩ := (parse_iff_braceShape _ _).mp h
  have hbody := groupSeq_no_ddash hg
  have h2 : ∀ u v, body ++ rb ≠ u ++ '-' :: '-' :: v := by
    rcases hrb with rfl | rfl
    · simpa using hbody
    · exact fun u v => append_single_no_ddash (by decide) u body hbody v
  rcases hlb with rfl | rfl
  · simpa using h2
  · intro u v heq
    rw [List.append_assoc, List.singleton_append] at heq
    exact cons_no_ddash (by decide) h2 u v heq

/-! An instrumented embedding of `sqlite3_uuid_str_to_blob` that walks the
string by index.  Reads at positions up to the terminator (index =
length) succeed; any read past the terminator is flagged as `oob`.  The C
code is memory-safe exactly when the `oob` outcome is unreachable. -/

/-- Result of the instrumented parser. -/
inductive ParseRes where
  | ok : List Nat → ParseRes
  | err : ParseRes
  | oob : ParseRes
  deriving DecidableEq

/-- Result of the instrumented 16-byte loop: decoded bytes plus the index
after the consumed text. -/
inductive LoopRes where
  | ok : List Nat → Nat → LoopRes
  | err : LoopRes
  | oob : LoopRes
  deriving DecidableEq

/-- Read the character at index `i` of the NUL-terminated string whose
content is `s`: the terminator itself reads as `\x00`, anything beyond it
is an out-of-bounds read. -/
def pget (s : List Char) (i : Nat) : Option Char :=
  if h : i < s.length then some (s.get ⟨i, h⟩)
  else if i = s.length then some '\x00'
  else none

/-- Index-based version of `strToBlobLoop`, reading through `pget`.  The
second `isxdigit` read happens only when the first succeeded, mirroring
the short-circuit of `isxdigit(zStr[0]) && isxdigit(zStr[1])`. -/
def loopIdx (s : List Char) : Nat → Nat → LoopRes
  | 0, i => LoopRes.ok [] i
  | n + 1, i =>
    match pget s i with
    | none => LoopRes.oob
    | some c =>
      match pget s (if c = '-' then i + 1 else i) with
      | none => LoopRes.oob
      | some c0 =>
        if isxdigit c0 then
          match pget s ((if c = '-' then i + 1 else i) + 1) with
          | none => LoopRes.oob
          | some c1 =>
            if isxdigit c1 then
              match loopIdx s n ((if c = '-' then i + 1 else i) + 2) with
              | LoopRes.ok bs j => LoopRes.ok (hexPairVal c0 c1 :: bs) j
              | r => r
            else LoopRes.err
        else LoopRes.err

/-- Index-based version of `sqlite3_uuid_str_to_blob`. -/
def strToBlobIdx (s : List Char) : ParseRes :=
  match pget s 0 with
  | none => ParseRes.oob
  | some c =>
    match loopIdx s 16 (if c = '\x7b' then 1 else 0) with
    | LoopRes.err => ParseRes.err
    | LoopRes.oob => ParseRes.oob
    | LoopRes.ok bs j =>
      match pget s j with
      | none => ParseRes.oob
      | some c2 =>
        match pget s (if c2 = '\x7d' then j + 1 else j) with
        | none => ParseRes.oob
        | some c3 => if c3 = '\x00' then ParseRes.ok bs else ParseRes.err

theorem pget_le {s : List Char} {i : Nat} (h : i ≤ s.length) :
    ∃ c, pget s i = some c := by
  unfold pget
  rcases Nat.lt_or_ge i s.length with h1 | h1
  · exact ⟨_, by rw [dif_pos h1]⟩
  · have h2 : i = s.length := by omega
    exact ⟨'\x00', by rw [dif_neg (by omega), if_pos h2]⟩

theorem pget_lt {s : List Char} {i : Nat} {c : Char}
    (h : pget s i = some c) (hc : c ≠ '\x00') : i < s.length := by
  unfold pget at h
  split at h
  · assumption
  · split at h
    · injection h with h1
      exact absurd h1.symm hc
    · exact absurd h (by simp)

theorem loopIdx_safe (s : List Char) :
    ∀ (n i : Nat), i ≤ s.length →
      loopIdx s n i ≠ LoopRes.oob ∧
      ∀ bs j, loopIdx s n i = LoopRes.ok bs j → j ≤ s.length := by
  intro n
  induction n with
  | zero =>
    intro i hi
    refine ⟨by simp [loopIdx], ?_⟩
    intro bs j h
    simp only [loopIdx, LoopRes.ok.injEq] at h
    exact h.2 ▸ hi
  | succ n ih =>
    intro i hi
    obtain ⟨c, hc⟩ := pget_le hi
    have hi1 : (if c = '-' then i + 1 else i) ≤ s.length := by
      by_cases hdash : c = '-'
      · rw [if_pos hdash]
        have := pget_lt hc (by rw [hdash]; decide)
        omega
      · rw [if_neg hdash]
        exact hi
    obtain ⟨c0, hc0⟩ := pget_le hi1
    rw [loopIdx]
    simp only [hc, hc0]
    by_cases hx0 : isxdigit c0 = true
    · rw [if_pos hx0]
      have hi2 : (if c = '-' then i + 1 else i) + 1 ≤ s.length := by
        have := pget_lt hc0 (isxdigit_ne_nul hx0)
        omega
      obtain ⟨c1, hc1⟩ := pget_le hi2
      simp only [hc1]
      by_cases hx1 : isxdigit c1 = true
      · rw [if_pos hx1]
        have hi3 : (if c = '-' then i + 1 else i) + 2 ≤ s.length := by
          have := pget_lt hc1 (isxdigit_ne_nul hx1)
          omega
        obtain ⟨hno, hok⟩ := ih _ hi3
        rcases hrec : loopIdx s n ((if c = '-' then i + 1 else i) + 2) with ⟨bs, j⟩ | _ | _
        · simp only [hrec]
          refine ⟨by simp, ?_⟩
          intro bs1 j1 hj
          simp only [LoopRes.ok.injEq] at hj
          exact hj.2 ▸ hok bs j hrec
        · simp only [hrec]
          exact ⟨by simp, fun bs1 j1 hj => absurd hj (by simp)⟩
        · exact absurd hrec hno
      · rw [if_neg hx1]
        exact ⟨by simp, fun bs1 j1 hj => absurd hj (by simp)⟩
    · rw [if_neg hx0]
      exact ⟨by simp, fun bs1 j1 hj => absurd hj (by simp)⟩

theorem strToBlobIdx_safe (s : List Char) : strToBlobIdx s ≠ ParseRes.oob := by
  obtain ⟨c, hc⟩ := pget_le (Nat.zero_le s.length)
  have hi0 : (if c = '\x7b' then 1 else 0) ≤ s.length := by
    by_cases hb : c = '\x7b'
    · rw [if_pos hb]
      have := pget_lt hc (by rw [hb]; decide)
      omega
    · rw [if_neg hb]
      exact Nat.zero_le _
  obtain ⟨hno, hok⟩ := loopIdx_safe s 16 _ hi0
  rw [strToBlobIdx]
  simp only [hc]
  rcases hrec : loopIdx s 16 (if c = '\x7b' then 1 else 0) with ⟨bs, j⟩ | _ | _
  · simp only [hrec]
    have hj := hok bs j hrec
    obtain ⟨c2, hc2⟩ := pget_le hj
    simp only [hc2]
    have hj1 : (if c2 = '\x7d' then j + 1 else j) ≤ s.length := by
      by_cases hrb : c2 = '\x7d'
      · rw [if_pos hrb]
        have := pget_lt hc2 (by rw [hrb]; decide)
        omega
      · rw [if_neg hrb]
        exact hj
    obtain ⟨c3, hc3⟩ := pget_le hj1
    simp only [hc3]
    by_cases h3 : c3 = '\x00' <;> simp [h3]
  · simp only [hrec]
    simp
  · exact absurd hrec hno

/-! Normalizer-level length facts. -/

theorem input_to_blob_length {v : SqlValue} {b : List Nat}
    (h : sqlite3_uuid_input_to_blob v = some b) : b.length = 16 := by
  cases v with
  | text z =>
    simp only [sqlite3_uuid_input_to_blob] at h
    rcases hp : sqlite3_uuid_str_to_blob z with _ | bs
    · rw [hp] at h
      exact absurd h (by simp)
    · rw [hp] at h
      have hb : bs = b := by simpa using h
      exact hb ▸ parse_some_length hp
  | blob b1 =>
    simp only [sqlite3_uuid_input_to_blob] at h
    by_cases hb : b1.length = 16
    · rw [if_pos hb] at h
      have : b1 = b := by simpa using h
      exact this ▸ hb
    · rw [if_neg hb] at h
      exact absurd h (by simp)
  | integer i => exact absurd h (by simp [sqlite3_uuid_input_to_blob])
  | null => exact absurd h (by simp [sqlite3_uuid_input_to_blob])

theorem uuid_str_length {v : SqlValue} {out : List Char}
    (h : uuid_str v = some out) : out.length = 36 := by
  rw [uuid_str] at h
  rcases hv : sqlite3_uuid_input_to_blob v with _ | pBlob
  · rw [hv] at h
    exact absurd h (by simp)
  · rw [hv] at h
    have hout : sqlite3_uuid_blob_to_str pBlob = out := by simpa using h
    exact hout ▸ blob_to_str_length (input_to_blob_length hv)

theorem uuid_blob_length {v : SqlValue} {b : List Nat}
    (h : uuid_blob v = some b) : b.length = 16 := by
  rw [uuid_blob] at h
  rcases hv : sqlite3_uuid_input_to_blob v with _ | pBlob
  · rw [hv] at h
    exact absurd h (by simp)
  · rw [hv] at h
    have hb : pBlob = b := by simpa using h
    exact hb ▸ input_to_blob_length hv

/-! The claims. -/

/-- Claim C1: for every 16-byte sequence `b`, parsing the string produced
by the formatter succeeds and returns exactly `b` — bytes to text to bytes
is the identity. -/
theorem claim_c1_roundtrip {bs : List Nat} (hlen : bs.length = 16)
    (hlt : ∀ x ∈ bs, x < 256) :
    sqlite3_uuid_str_to_blob (sqlite3_uuid_blob_to_str bs) = some bs :=
  parse_format hlen hlt

theorem claim_c1_witness :
    sqlite3_uuid_str_to_blob (sqlite3_uuid_blob_to_str
      [0xa0, 0xee, 0xbc, 0x99, 0x9c, 0x0b, 0x4e, 0xf8,
       0xbb, 0x6d, 0x6b, 0xb9, 0xbd, 0x38, 0x0a, 0x11]) =
      some [0xa0, 0xee, 0xbc, 0x99, 0x9c, 0x0b, 0x4e, 0xf8,
            0xbb, 0x6d, 0x6b, 0xb9, 0xbd, 0x38, 0x0a, 0x11] :=
  claim_c1_roundtrip rfl (by decide)

/-- Claim C3: the parser succeeds exactly on an optional leading brace,
sixteen loose byte groups and an optional trailing brace followed by the
end of the input; in particular every successful input contains exactly 32
hex digits, so fewer or more than 32 hex digits, a non-hex character in a
digit position, or trailing characters all fail. -/
theorem claim_c3_rejection :
    (∀ (s : List Char) (bs : List Nat),
      sqlite3_uuid_str_to_blob s = some bs ↔ BraceShape s bs) ∧
    (∀ (s : List Char) (bs : List Nat),
      sqlite3_uuid_str_to_blob s = some bs → s.countP isxdigit = 32) :=
  ⟨parse_iff_braceShape, fun _ _ h => parse_some_countP h⟩

theorem claim_c3_witness :
    List.countP isxdigit ("a0eebc999c0b4ef8bb6d6bb9bd380a11".toList) = 32 :=
  claim_c3_rejection.2 _
    [0xa0, 0xee, 0xbc, 0x99, 0x9c, 0x0b, 0x4e, 0xf8,
     0xbb, 0x6d, 0x6b, 0xb9, 0xbd, 0x38, 0x0a, 0x11] (by decide)

/-- Claim C4: accepted loose inputs with the same case-folded hex digit
content parse to the same bytes and hence reformat to the identical
canonical string; in particular the braced, oddly-hyphenated example
canonicalizes to `a0eebc99-9c0b-4ef8-bb6d-6bb9bd380a11`. -/
theorem claim_c4_canonicalization :
    (∀ (s1 s2 : List Char) (bs1 bs2 : List Nat),
      sqlite3_uuid_str_to_blob s1 = some bs1 →
      sqlite3_uuid_str_to_blob s2 = some bs2 →
      (s1.filter isxdigit).map hexCharToInt = (s2.filter isxdigit).map hexCharToInt →
      sqlite3_uuid_blob_to_str bs1 = sqlite3_uuid_blob_to_str bs2) ∧
    uuid_str (SqlValue.text
        ('\x7b' :: ("a0eebc99-9c0b4ef8-bb6d6bb9-bd380a11".toList ++ ['\x7d']))) =
      some ("a0eebc99-9c0b-4ef8-bb6d-6bb9bd380a11".toList) := by
  constructor
  · intro s1 s2 bs1 bs2 h1 h2 heq
    rw [parse_some_pairUp h1, parse_some_pairUp h2, heq]
  · decide

theorem claim_c4_witness :
    sqlite3_uuid_blob_to_str
        [0xa0, 0xee, 0xbc, 0x99, 0x9c, 0x0b, 0x4e, 0xf8,
         0xbb, 0x6d, 0x6b, 0xb9, 0xbd, 0x38, 0x0a, 0x11] =
      sqlite3_uuid_blob_to_str
        [0xa0, 0xee, 0xbc, 0x99, 0x9c, 0x0b, 0x4e, 0xf8,
         0xbb, 0x6d, 0x6b, 0xb9, 0xbd, 0x38, 0x0a, 0x11] :=
  claim_c4_canonicalization.1
    ("A0EEBC99-9C0B-4EF8-BB6D-6BB9BD380A11".toList)
    ("a0eebc999c0b4ef8bb6d6bb9bd380a11".toList)
    _ _ (by decide) (by decide) (by decide)

/-- Claim C8: the normalizer accepts a blob exactly when its length is 16,
passing the bytes through unchanged, and rejects every value that is
neither text nor blob, such as null or an integer. -/
theorem claim_c8_normalizer :
    (∀ b : List Nat,
      (sqlite3_uuid_input_to_blob (SqlValue.blob b)).isSome = true ↔ b.length = 16) ∧
    (∀ b : List Nat, b.length = 16 →
      sqlite3_uuid_input_to_blob (SqlValue.blob b) = some b) ∧
    sqlite3_uuid_input_to_blob SqlValue.null = none ∧
    (∀ i : Int, sqlite3_uuid_input_to_blob (SqlValue.integer i) = none) := by
  refine ⟨?_, ?_, rfl, fun i => rfl⟩
  · intro b
    by_cases hb : b.length = 16 <;> simp [sqlite3_uuid_input_to_blob, hb]
  · intro b hb
    simp [sqlite3_uuid_input_to_blob, hb]

theorem claim_c8_witness :
    sqlite3_uuid_input_to_blob
        (SqlValue.blob [0, 1, 2, 3, 4, 5, 6, 7, 8, 9, 10, 11, 12, 13, 14, 15]) =
      some [0, 1, 2, 3, 4, 5, 6, 7, 8, 9, 10, 11, 12, 13, 14, 15] :=
  claim_c8_normalizer.2.1 _ (by decide)

/-- Claim C9: no partial results — a successful parse always yields a full
well-formed 16-byte blob, and the public operations return either a full
36-character string / 16-byte blob or nothing. -/
theorem claim_c9_all_or_nothing :
    (∀ (s : List Char) (bs : List Nat), sqlite3_uuid_str_to_blob s = some bs →
      bs.length = 16 ∧ ∀ y ∈ bs, y < 256) ∧
    (∀ (v : SqlValue) (out : List Char), uuid_str v = some out → out.length = 36) ∧
    (∀ (v : SqlValue) (b : List Nat), uuid_blob v = some b → b.length = 16) :=
  ⟨fun _ _ h => ⟨parse_some_length h, parse_some_bytes_lt h⟩,
   fun _ _ h => uuid_str_length h,
   fun _ _ h => uuid_blob_length h⟩

theorem claim_c9_witness :
    ([0xff, 0xff, 0xff, 0xff, 0xff, 0xff, 0xff, 0xff,
      0xff, 0xff, 0xff, 0xff, 0xff, 0xff, 0xff, 0xff] : List Nat).length = 16 ∧
    ∀ y ∈ ([0xff, 0xff, 0xff, 0xff, 0xff, 0xff, 0xff, 0xff,
            0xff, 0xff, 0xff, 0xff, 0xff, 0xff, 0xff, 0xff] : List Nat), y < 256 :=
  claim_c9_all_or_nothing.1 ("ffffffffffffffffffffffffffffffff".toList) _ (by decide)

/-- Claim C10: the parser never reads past the first terminator — in the
index-instrumented embedding, where every read uses `pget` and a read
beyond the terminator is the `oob` outcome, `oob` is unreachable for every
input string. -/
theorem claim_c10_no_oob (s : List Char) : strToBlobIdx s ≠ ParseRes.oob :=
  strToBlobIdx_safe s

/-- Claim C2: for every 16-byte random fill, the generated string matches
the canonical pattern, its 13th hex digit (index 14, the first digit of
byte 6) is `4`, its 17th hex digit (index 19, the first digit of byte 8)
is one of `8`, `9`, `a`, `b`, and the stamping satisfies
`b6 = (b6 & 0x0F) | 0x40` and `b8 = (b8 & 0x3F) | 0x80`. -/
theorem claim_c2_generate {rb : List Nat} (hlen : rb.length = 16)
    (hlt : ∀ x ∈ rb, x < 256) :
    matchesCanonical (sqlite3_uuid rb) = true ∧
    (sqlite3_uuid rb).getD 14 ' ' = '4' ∧
    (sqlite3_uuid rb).getD 19 ' ' ∈ (['8', '9', 'a', 'b'] : List Char) ∧
    (uuid4_blob rb).getD 6 0 = ((rb.getD 6 0) &&& 0x0f) ||| 0x40 ∧
    (uuid4_blob rb).getD 8 0 = ((rb.getD 8 0) &&& 0x3f) ||| 0x80 := by
  obtain ⟨b0, b1, b2, b3, b4, b5, b6, b7, b8, b9, b10, b11, b12, b13, b14, b15, rfl⟩ :=
    exists_sixteen hlen
  have hstamp := uuid4_blob_sixteen b0 b1 b2 b3 b4 b5 b6 b7 b8 b9 b10 b11 b12 b13 b14 b15
  have hout : sqlite3_uuid [b0, b1, b2, b3, b4, b5, b6, b7, b8, b9, b10, b11, b12, b13, b14, b15] =
      sqlite3_uuid_blob_to_str
        [b0, b1, b2, b3, b4, b5, (b6 &&& 0x0f) + 0x40, b7, (b8 &&& 0x3f) + 0x80,
         b9, b10, b11, b12, b13, b14, b15] := by
    rw [sqlite3_uuid, hstamp]
  refine ⟨?_, ?_, ?_, ?_, ?_⟩
  · rw [hout]
    exact matchesCanonical_format rfl
  · rw [hout, blob_to_str_sixteen_flat]
    show hexDigitChar (((b6 &&& 0x0f) + 0x40) >>> 4) = '4'
    exact version_nibble b6
  · rw [hout, blob_to_str_sixteen_flat]
    show hexDigitChar (((b8 &&& 0x3f) + 0x80) >>> 4) ∈ (['8', '9', 'a', 'b'] : List Char)
    exact variant_nibble b8
  · rw [hstamp]
    show (b6 &&& 0x0f) + 0x40 = (b6 &&& 0x0f) ||| 0x40
    exact stamp6_or b6
  · rw [hstamp]
    show (b8 &&& 0x3f) + 0x80 = (b8 &&& 0x3f) ||| 0x80
    exact stamp8_or b8

theorem claim_c2_witness :
    matchesCanonical (sqlite3_uuid
      [0x00, 0x11, 0x22, 0x33, 0x44, 0x55, 0x66, 0x77,
       0x88, 0x99, 0xaa, 0xbb, 0xcc, 0xdd, 0xee, 0xff]) = true ∧
    (sqlite3_uuid
      [0x00, 0x11, 0x22, 0x33, 0x44, 0x55, 0x66, 0x77,
       0x88, 0x99, 0xaa, 0xbb, 0xcc, 0xdd, 0xee, 0xff]).getD 14 ' ' = '4' ∧
    (sqlite3_uuid
      [0x00, 0x11, 0x22, 0x33, 0x44, 0x55, 0x66, 0x77,
       0x88, 0x99, 0xaa, 0xbb, 0xcc, 0xdd, 0xee, 0xff]).getD 19 ' '
        ∈ (['8', '9', 'a', 'b'] : List Char) ∧
    (uuid4_blob
      [0x00, 0x11, 0x22, 0x33, 0x44, 0x55, 0x66, 0x77,
       0x88, 0x99, 0xaa, 0xbb, 0xcc, 0xdd, 0xee, 0xff]).getD 6 0 =
      (([0x00, 0x11, 0x22, 0x33, 0x44, 0x55, 0x66, 0x77,
         0x88, 0x99, 0xaa, 0xbb, 0xcc, 0xdd, 0xee, 0xff] : List Nat).getD 6 0 &&& 0x0f)
        ||| 0x40 ∧
    (uuid4_blob
      [0x00, 0x11, 0x22, 0x33, 0x44, 0x55, 0x66, 0x77,
       0x88, 0x99, 0xaa, 0xbb, 0xcc, 0xdd, 0xee, 0xff]).getD 8 0 =
      (([0x00, 0x11, 0x22, 0x33, 0x44, 0x55, 0x66, 0x77,
         0x88, 0x99, 0xaa, 0xbb, 0xcc, 0xdd, 0xee, 0xff] : List Nat).getD 8 0 &&& 0x3f)
        ||| 0x80 :=
  claim_c2_generate rfl (by decide)

/-- Claim C5: on any 16 bytes the formatter emits the two lower-case hex
digits of each byte, high nibble first, with single hyphens exactly before
source bytes 4, 6, 8 and 10 (groups 8-4-4-4-12), 36 characters total, no
trailing separator, and it is a total function with no failure mode. -/
theorem claim_c5_formatter
    (x0 x1 x2 x3 x4 x5 x6 x7 x8 x9 x10 x11 x12 x13 x14 x15 : Nat)
    (h : ∀ y ∈ [x0, x1, x2, x3, x4, x5, x6, x7, x8, x9, x10, x11, x12, x13, x14, x15],
      y < 256) :
    sqlite3_uuid_blob_to_str
        [x0, x1, x2, x3, x4, x5, x6, x7, x8, x9, x10, x11, x12, x13, x14, x15] =
      hx x0 ++ hx x1 ++ hx x2 ++ hx x3 ++ ['-'] ++ hx x4 ++ hx x5 ++ ['-'] ++
      hx x6 ++ hx x7 ++ ['-'] ++ hx x8 ++ hx x9 ++ ['-'] ++
      hx x10 ++ hx x11 ++ hx x12 ++ hx x13 ++ hx x14 ++ hx x15 ∧
    (sqlite3_uuid_blob_to_str
        [x0, x1, x2, x3, x4, x5, x6, x7, x8, x9, x10, x11, x12, x13, x14, x15]).length = 36 ∧
    matchesCanonical (sqlite3_uuid_blob_to_str
        [x0, x1, x2, x3, x4, x5, x6, x7, x8, x9, x10, x11, x12, x13, x14, x15]) = true ∧
    (∀ y : Nat, hx y = [hexDigitChar (y >>> 4), hexDigitChar (y &&& 0xf)] ∧
      (hx y).all (fun c => decide (c ≠ '-') && isLowerHexDigit c) = true) := by
  refine ⟨blob_to_str_sixteen x0 x1 x2 x3 x4 x5 x6 x7 x8 x9 x10 x11 x12 x13 x14 x15,
    blob_to_str_length rfl, matchesCanonical_format rfl, ?_⟩
  intro y
  refine ⟨rfl, ?_⟩
  simp [hx, isLowerHexDigit_hexDigitChar, hexDigitChar_ne_hyphen]

theorem claim_c5_witness :
    (sqlite3_uuid_blob_to_str
      [0, 1, 2, 3, 4, 5, 6, 7, 8, 9, 10, 11, 12, 13, 14, 15]).length = 36 :=
  (claim_c5_formatter 0 1 2 3 4 5 6 7 8 9 10 11 12 13 14 15 (by decide)).2.1

/-- Claim C6: a single hyphen may precede any of the 16 byte groups,
including the first, at any position; the loop consumes at most one hyphen
per byte-group start, so two consecutive hyphens there fail, and no
successfully parsed input contains two consecutive hyphens anywhere. -/
theorem claim_c6_hyphens :
    (∀ (body : List Char) (bs : List Nat),
      GroupSeq 16 body bs → sqlite3_uuid_str_to_blob body = some bs) ∧
    (∀ (n : Nat) (s : List Char), strToBlobLoop (n + 1) ('-' :: '-' :: s) = none) ∧
    (∀ (s : List Char) (bs : List Nat), sqlite3_uuid_str_to_blob s = some bs →
      ∀ u v : List Char, s ≠ u ++ '-' :: '-' :: v) := by
  refine ⟨?_, ?_, fun s bs h => parse_some_no_ddash h⟩
  · intro body bs hg
    exact (parse_iff_braceShape _ _).mpr ⟨[], body, [], by simp, Or.inl rfl, Or.inl rfl, hg⟩
  · intro n s
    rw [strToBlobLoop, skipChar_cons_eq]
    rcases s with _ | ⟨c1, r⟩
    · rfl
    · simp [isxdigit_hyphen]

theorem claim_c6_witness :
    sqlite3_uuid_str_to_blob ("-a0eebc999c0b4ef8bb6d6bb9bd380a11".toList) =
      some [0xa0, 0xee, 0xbc, 0x99, 0x9c, 0x0b, 0x4e, 0xf8,
            0xbb, 0x6d, 0x6b, 0xb9, 0xbd, 0x38, 0x0a, 0x11] :=
  claim_c6_hyphens.1 _ _ (by
    refine GroupSeq.hyph (by decide) (by decide) ?_
    repeat
      first
        | exact GroupSeq.nil
        | refine GroupSeq.pair (by decide) (by decide) ?_)

/-- Claim C7: the leading `\x7b` and trailing `\x7d` are independently
optional: a body of 16 valid byte groups parses to the same 16 bytes bare,
with only a leading brace, with only a trailing brace, or with both. -/
theorem claim_c7_braces {body : List Char} {bs : List Nat}
    (hg : GroupSeq 16 body bs) :
    sqlite3_uuid_str_to_blob body = some bs ∧
    sqlite3_uuid_str_to_blob ('\x7b' :: body) = some bs ∧
    sqlite3_uuid_str_to_blob (body ++ ['\x7d']) = some bs ∧
    sqlite3_uuid_str_to_blob ('\x7b' :: body ++ ['\x7d']) = some bs := by
  refine ⟨?_, ?_, ?_, ?_⟩ <;> apply (parse_iff_braceShape _ _).mpr
  · exact ⟨[], body, [], by simp, Or.inl rfl, Or.inl rfl, hg⟩
  · exact ⟨['\x7b'], body, [], by simp, Or.inr rfl, Or.inl rfl, hg⟩
  · exact ⟨[], body, ['\x7d'], by simp, Or.inl rfl, Or.inr rfl, hg⟩
  · exact ⟨['\x7b'], body, ['\x7d'], by simp, Or.inr rfl, Or.inr rfl, hg⟩

theorem claim_c7_witness :
    sqlite3_uuid_str_to_blob ('\x7b' :: "00112233445566778899aabbccddeeff".toList) =
      some [0x00, 0x11, 0x22, 0x33, 0x44, 0x55, 0x66, 0x77,
            0x88, 0x99, 0xaa, 0xbb, 0xcc, 0xdd, 0xee, 0xff] :=
  (claim_c7_braces (by
    repeat
      first
        | exact GroupSeq.nil
        | refine GroupSeq.pair (by decide) (by decide) ?_)).2.1

end SqleanUuid
